import Mathlib

/-!
Shallow embedding of the typed state-migration engine from
`crates/sdk/src/migrations.rs` (namada), together with proofs of the
specification's claims about it.

Modelling conventions:
* bytes are `Nat` values, with well-formedness hypotheses `b < 256`
  where the claim needs real bytes;
* a Rust `Key` is modelled by its canonical string form (the spec
  states keys are string-convertible both ways);
* a panic (slice out of bounds, `.unwrap()` on `Err`) is modelled by
  `none` / a dedicated `panic` result constructor;
* the global decoder registry (`namada_migrations::get_deserializer`)
  and the regex engine (`Regex::new`) are external collaborators and
  are passed in as explicit function parameters.
-/

set_option maxRecDepth 10000

namespace Migrations

/-- Payload of an `UpdateValue`: either a raw pair (bytes to persist
verbatim plus the canonical borsh serialization used for validation) or
a single serialized byte string used for both.  Mirrors `enum UpdateBytes`. -/
inductive UpdateBytes where
  | Raw (to_write : List Nat) (serialized : List Nat)
  | Serialized (bytes : List Nat)
  deriving DecidableEq, Repr

/-- A value to be added to the database; mirrors `struct UpdateValue`
(`type_hash: [u8; 32]`, `bytes: UpdateBytes`).  The 32-byte array is a
list whose length is constrained by well-formedness. -/
structure UpdateValue where
  type_hash : List Nat
  bytes : UpdateBytes
  deriving DecidableEq, Repr

/-- Mirrors `UpdateValue::is_raw`. -/
def UpdateValue.is_raw (v : UpdateValue) : Bool :=
  match v.bytes with
  | .Raw _ _ => true
  | .Serialized _ => false

/-- Mirrors the private method `UpdateValue::bytes(&self)`: the bytes
used for validation (the canonical serialization). -/
def UpdateValue.canonicalBytes (v : UpdateValue) : List Nat :=
  match v.bytes with
  | .Raw _ serialized => serialized
  | .Serialized bytes => bytes

/-- Mirrors `UpdateValue::to_write`: the bytes actually persisted. -/
def UpdateValue.to_write (v : UpdateValue) : List Nat :=
  match v.bytes with
  | .Raw to_write _ => to_write
  | .Serialized bytes => bytes

/-! ### Borsh serialization of `UpdateValue`

Borsh writes struct fields in order, an enum as a one-byte variant tag
followed by the variant's fields, a `Vec<u8>` as a little-endian `u32`
length followed by the bytes, and a `[u8; 32]` as the 32 bytes verbatim. -/

/-- Little-endian `u32` encoding of a length. -/
def encU32 (n : Nat) : List Nat :=
  [n % 256, n / 256 % 256, n / 65536 % 256, n / 16777216 % 256]

/-- Borsh encoding of a `Vec<u8>`: `u32` length prefix then the bytes. -/
def serVec (bs : List Nat) : List Nat := encU32 bs.length ++ bs

/-- Borsh encoding of `UpdateBytes` (variant tags in declaration order:
`Raw = 0`, `Serialized = 1`). -/
def serUpdateBytes : UpdateBytes → List Nat
  | .Raw t s => 0 :: (serVec t ++ serVec s)
  | .Serialized b => 1 :: serVec b

/-- Borsh encoding of `UpdateValue` (`serialize_to_vec`). -/
def serUpdateValue (v : UpdateValue) : List Nat :=
  v.type_hash ++ serUpdateBytes v.bytes

/-- Split off exactly `n` bytes, failing on short input. -/
def splitN (n : Nat) (xs : List Nat) : Option (List Nat × List Nat) :=
  if n ≤ xs.length then some (xs.take n, xs.drop n) else none

/-- Parse a little-endian `u32`. -/
def parseU32 : List Nat → Option (Nat × List Nat)
  | a :: b :: c :: d :: rest =>
      some (a + 256 * b + 65536 * c + 16777216 * d, rest)
  | _ => none

/-- Parse a borsh `Vec<u8>`. -/
def parseVec (xs : List Nat) : Option (List Nat × List Nat) :=
  match parseU32 xs with
  | none => none
  | some (n, rest) => splitN n rest

/-- Parse a borsh `UpdateBytes`. -/
def parseUpdateBytes : List Nat → Option (UpdateBytes × List Nat)
  | 0 :: rest =>
      match parseVec rest with
      | none => none
      | some (t, r1) =>
        match parseVec r1 with
        | none => none
        | some (s, r2) => some (.Raw t s, r2)
  | 1 :: rest =>
      match parseVec rest with
      | none => none
      | some (b, r) => some (.Serialized b, r)
  | _ => none

/-- Parse a borsh `UpdateValue` (32-byte hash then payload). -/
def parseUpdateValue (xs : List Nat) : Option (UpdateValue × List Nat) :=
  match splitN 32 xs with
  | none => none
  | some (h, r) =>
    match parseUpdateBytes r with
    | none => none
    | some (b, r2) => some (⟨h, b⟩, r2)

/-- Mirrors `UpdateValue::try_from_slice`: full-input borsh decoding,
rejecting trailing bytes. -/
def borshDeserialize (xs : List Nat) : Option UpdateValue :=
  match parseUpdateValue xs with
  | some (v, []) => some v
  | _ => none

/-! ### HEXUPPER wire form -/

/-- Upper-case hex digit of a nibble. -/
def hexDigit (n : Nat) : Char :=
  if n < 10 then Char.ofNat (48 + n) else Char.ofNat (55 + n)

/-- Hex-encode a byte list, two digits per byte.  Mirrors
`HEXUPPER.encode`. -/
def hexEncodeBytes : List Nat → List Char
  | [] => []
  | b :: bs => hexDigit (b / 16) :: hexDigit (b % 16) :: hexEncodeBytes bs

/-- Value of an upper-case hex digit; `none` for any other character
(`HEXUPPER` rejects lower-case and non-hex input). -/
def hexVal (c : Char) : Option Nat :=
  if '0' ≤ c ∧ c ≤ '9' then some (c.toNat - 48)
  else if 'A' ≤ c ∧ c ≤ 'F' then some (c.toNat - 55)
  else none

/-- Hex-decode a character list; fails on odd length or any non-hex
character.  Mirrors `HEXUPPER.decode`. -/
def hexDecodeChars : List Char → Option (List Nat)
  | [] => some []
  | [_] => none
  | c1 :: c2 :: rest =>
      match hexVal c1 with
      | none => none
      | some h =>
        match hexVal c2 with
        | none => none
        | some l =>
          match hexDecodeChars rest with
          | none => none
          | some tl => some ((16 * h + l) :: tl)

/-- Mirrors `impl Serialize for UpdateValue`: the textual wire form is
the upper-case hex of the borsh serialization. -/
def encodeWire (v : UpdateValue) : String :=
  String.mk (hexEncodeBytes (serUpdateValue v))

/-- The hex-decoding step of `UpdateValueVisitor::visit_str`. -/
def hexDecode (s : String) : Option (List Nat) :=
  hexDecodeChars s.toList

/-- Mirrors `UpdateValueVisitor::visit_str`: hex-decode, then borsh
decode; `none` models the structured deserialization error. -/
def decodeWire (s : String) : Option UpdateValue :=
  match hexDecode s with
  | none => none
  | some bs => borshDeserialize bs

/-- Well-formed `UpdateValue`: the hash is 32 real bytes, payload
entries are real bytes, and payload lengths fit in a `u32` (borsh's
length prefix). -/
def WF (v : UpdateValue) : Prop :=
  v.type_hash.length = 32 ∧ (∀ b ∈ v.type_hash, b < 256) ∧
  (match v.bytes with
   | .Raw t s =>
       (∀ b ∈ t, b < 256) ∧ (∀ b ∈ s, b < 256) ∧
       t.length < 4294967296 ∧ s.length < 4294967296
   | .Serialized b =>
       (∀ x ∈ b, x < 256) ∧ b.length < 4294967296)

instance (v : UpdateValue) : Decidable (WF v) := by
  unfold WF
  cases v.bytes <;> exact inferInstance

/-! ### The migration engine -/

/-- The maximum number of characters printed per value. -/
def PRINTLN_CUTOFF : Nat := 300

/-- A decode-and-stringify callback from the external registry
(`CbFromByteArrayToTypeName`). -/
abbrev Decoder := List Nat → Option String

/-- The external decoder registry
(`namada_migrations::get_deserializer`), passed explicitly. -/
abbrev Registry := List Nat → Option Decoder

/-- Validation / update errors.  The code reports `eyre` strings; we
keep the three distinguishable kinds. -/
inductive MErr where
  | unknownType
  | decodeFailure
  | typeMismatch (key : String)
  deriving DecidableEq, Repr

/-- A compiled regular expression: its source text and its match
predicate on key strings.  The engine treats both the regex engine and
the store scan as external collaborators. -/
structure Regex where
  source : String
  isMatch : String → Bool

/-- Mirrors `enum DbUpdateType`; a `Key` is modelled by its canonical
string form. -/
inductive DbUpdateType where
  | Add (key : String) (value : UpdateValue) (force : Bool)
  | Delete (key : String)
  | RepeatAdd (pattern : String) (value : UpdateValue) (force : Bool)
  | RepeatDelete (pattern : String)

/-- Mirrors `DbUpdateType::pattern`: the key or pattern as a string. -/
def DbUpdateType.pattern : DbUpdateType → String
  | .Add key _ _ => key
  | .Delete key => key
  | .RepeatAdd p _ _ => p
  | .RepeatDelete p => p

/-- Mirrors `DbUpdateType::is_force`. -/
def DbUpdateType.is_force : DbUpdateType → Bool
  | .Add _ _ force => force
  | .RepeatAdd _ _ force => force
  | _ => false

/-- The value carried by an `Add`/`RepeatAdd`, if any. -/
def DbUpdateType.value? : DbUpdateType → Option UpdateValue
  | .Add _ v _ => some v
  | .RepeatAdd _ v _ => some v
  | _ => none

/-- Rust's `format!("{:?}", bytes)` on a byte slice: `[1, 2, 3]`. -/
def rustDebugBytes (bs : List Nat) : String :=
  "[" ++ String.intercalate ", " (bs.map toString) ++ "]"

/-- Mirrors `DbUpdateType::formatted_bytes`.  The truncation branch is
gated on `to_write().len()` but slices `bytes()` (the canonical bytes):
`&value.bytes()[..PRINTLN_CUTOFF]` panics when the canonical bytes are
shorter than the cutoff, modelled as `none`. -/
def DbUpdateType.formatted_bytes (u : DbUpdateType) : Option String :=
  match u with
  | .Add _ value _ | .RepeatAdd _ value _ =>
      if value.to_write.length > PRINTLN_CUTOFF then
        if PRINTLN_CUTOFF ≤ value.canonicalBytes.length then
          some (rustDebugBytes (value.canonicalBytes.take PRINTLN_CUTOFF) ++ " ...")
        else none
      else some (rustDebugBytes value.canonicalBytes)
  | _ => some ""

/-- First `n` characters of a string, as in `s.chars().take(n)`. -/
def takeChars (n : Nat) (s : String) : String :=
  (s.toList.take n).asString

/-- Mirrors `DbUpdateType::validate`.  The outer `Option` models a
panic (`none`); the `Except` carries the code's error path.  On success
the pair is the display string plus the decoder handle, present only
for raw values.  Note `deserialized.len()` in Rust is the UTF-8 byte
length of the string, while `chars().take` counts characters. -/
def validate (reg : Registry) (u : DbUpdateType) :
    Option (Except MErr (String × Option Decoder)) :=
  if u.is_force then u.formatted_bytes.map (fun s => Except.ok (s, none))
  else
    match u with
    | .Add _ value _ | .RepeatAdd _ value _ =>
      match reg value.type_hash with
      | none => some (.error .unknownType)
      | some des =>
        match des value.canonicalBytes with
        | none => some (.error .decodeFailure)
        | some deserialized =>
          let desOpt := if value.is_raw then some des else none
          if deserialized.utf8ByteSize > PRINTLN_CUTOFF then
            some (.ok (takeChars PRINTLN_CUTOFF deserialized ++ " ...", desOpt))
          else
            some (.ok (deserialized, desOpt))
    | .Delete _ | .RepeatDelete _ => some (.ok ("", none))

/-- Observable store operations, for stating that the engine issued no
scan/write/delete before a failure point. -/
inductive DbOp where
  | write (key : String) (value : List Nat)
  | del (key : String)
  | scan (pattern : String)
  deriving DecidableEq, Repr

/-- A concrete `DBUpdateVisitor`: an association-list store plus a
trace of the mutating/scanning operations issued to it. -/
structure MockDB where
  entries : List (String × List Nat)
  trace : List DbOp
  deriving DecidableEq, Repr

/-- Find the value for a key in an association list of entries. -/
def entriesRead (l : List (String × List Nat)) (key : String) :
    Option (List Nat) :=
  (l.find? (fun e => e.1 == key)).map (fun e => e.2)

/-- Remove a key's entries. -/
def entriesDelete (l : List (String × List Nat)) (key : String) :
    List (String × List Nat) :=
  l.filter (fun e => e.1 != key)

/-- Bind a key to a value (removing any previous binding).  The store
itself is an external collaborator (`DBUpdateVisitor` is a trait); this
is a lawful key-value model of its `write`. -/
def entriesWrite (l : List (String × List Nat)) (key : String)
    (value : List Nat) : List (String × List Nat) :=
  (key, value) :: entriesDelete l key

/-- `DBUpdateVisitor::read`. -/
def MockDB.read (db : MockDB) (key : String) : Option (List Nat) :=
  entriesRead db.entries key

/-- `DBUpdateVisitor::write`. -/
def MockDB.write (db : MockDB) (key : String) (value : List Nat) : MockDB :=
  { entries := entriesWrite db.entries key value,
    trace := db.trace ++ [.write key value] }

/-- `DBUpdateVisitor::delete`. -/
def MockDB.delete (db : MockDB) (key : String) : MockDB :=
  { entries := entriesDelete db.entries key,
    trace := db.trace ++ [.del key] }

/-- `DBUpdateVisitor::get_pattern`: all entries whose key matches, in
store order. -/
def MockDB.get_pattern (db : MockDB) (r : Regex) :
    List (String × List Nat) × MockDB :=
  (db.entries.filter (fun e => r.isMatch e.1),
   { db with trace := db.trace ++ [.scan r.source] })

/-- Mirrors `enum UpdateStatus`. -/
inductive UpdateStatus where
  | Deleted (keys : List String)
  | Add (pairs : List (String × String))
  deriving DecidableEq, Repr

/-- Result of `DbUpdateType::update` together with the final store
state; `panic` models an `unwrap`/slice panic, carrying the store as it
was at the point of the panic. -/
inductive UpdResult where
  | ok (status : UpdateStatus) (db : MockDB)
  | err (e : MErr) (db : MockDB)
  | panic (db : MockDB)
  deriving DecidableEq, Repr

/-- The `for (key, prev) in db.get_pattern(..)` loop of the
`RepeatAdd` branch: type-check the prior value when a decoder is
present, abort on the first mismatch, otherwise record the report pair
and write. -/
def repeatAddLoop (des? : Option Decoder) (deserialized : String)
    (w : List Nat) :
    List (String × List Nat) → MockDB → List (String × String) → UpdResult
  | [], db, pairs => .ok (.Add pairs) db
  | (key, prev) :: rest, db, pairs =>
    match des? with
    | some des =>
      match des prev with
      | none => .err (.typeMismatch key) db
      | some _ =>
          repeatAddLoop des? deserialized w rest (db.write key w)
            (pairs ++ [(key, deserialized)])
    | none =>
        repeatAddLoop des? deserialized w rest (db.write key w)
          (pairs ++ [(key, deserialized)])

/-- Mirrors `DbUpdateType::update`, with the registry and the regex
engine passed explicitly.  `compile p = none` models a `Regex::new`
failure, which the code `unwrap`s (a panic). -/
def update (reg : Registry) (compile : String → Option Regex)
    (u : DbUpdateType) (db : MockDB) : UpdResult :=
  match u with
  | .Add key value force =>
    match validate reg (.Add key value force) with
    | none => .panic db
    | some (.error e) => .err e db
    | some (.ok (deserialized, des?)) =>
      match db.read key, des? with
      | some prev, some des =>
        match des prev with
        | none => .err (.typeMismatch key) db
        | some _ => .ok (.Add [(key, deserialized)]) (db.write key value.to_write)
      | some _, none => .ok (.Add [(key, deserialized)]) (db.write key value.to_write)
      | none, _ => .ok (.Add [(key, deserialized)]) (db.write key value.to_write)
  | .Delete key => .ok (.Deleted [key]) (db.delete key)
  | .RepeatAdd pat value force =>
    match compile pat with
    | none => .panic db
    | some r =>
      match validate reg (.RepeatAdd pat value force) with
      | none => .panic db
      | some (.error e) => .err e db
      | some (.ok (deserialized, des?)) =>
        match db.get_pattern r with
        | (ms, db1) => repeatAddLoop des? deserialized value.to_write ms db1 []
  | .RepeatDelete pat =>
    match compile pat with
    | none => .panic db
    | some r =>
      match db.get_pattern r with
      | (ms, db1) =>
        .ok (.Deleted (ms.map Prod.fst))
          (ms.foldl (fun d kv => d.delete kv.1) db1)

/-- Write the same bytes to every listed key, in order (the write
sequence performed by the `RepeatAdd` loop). -/
def writeAllDB (db : MockDB) (w : List Nat)
    (ms : List (String × List Nat)) : MockDB :=
  ms.foldl (fun d kv => d.write kv.1 w) db

/-- Delete every listed key, in order (the delete sequence performed by
the `RepeatDelete` branch). -/
def deleteAllDB (db : MockDB) (ms : List (String × List Nat)) : MockDB :=
  ms.foldl (fun d kv => d.delete kv.1) db

/-- Follows the words of claim C2 (not the source): a bounded preview
of the raw bytes that will be persisted (`to_write`), truncated at the
300 limit.  Compared against the source's `formatted_bytes`, which
previews the canonical bytes instead. -/
def claimedBytePreview (v : UpdateValue) : String :=
  if v.to_write.length > PRINTLN_CUTOFF then
    rustDebugBytes (v.to_write.take PRINTLN_CUTOFF) ++ " ..."
  else rustDebugBytes v.to_write

/-! ### Round-trip lemmas for the wire form -/

theorem splitN_append (xs ys : List Nat) :
    splitN xs.length (xs ++ ys) = some (xs, ys) := by
  unfold splitN
  rw [if_pos]
  · rw [List.take_left, List.drop_left]
  · simp

theorem parseU32_encU32 (n : Nat) (h : n < 4294967296) (rest : List Nat) :
    parseU32 (encU32 n ++ rest) = some (n, rest) := by
  simp only [encU32, List.cons_append, List.nil_append, parseU32,
    Option.some.injEq, Prod.mk.injEq, and_true]
  omega

theorem encU32_lt (n : Nat) : ∀ b ∈ encU32 n, b < 256 := by
  intro b hb
  simp only [encU32, List.mem_cons, List.not_mem_nil, or_false] at hb
  rcases hb with h | h | h | h <;> omega

theorem parseVec_serVec (bs rest : List Nat) (h : bs.length < 4294967296) :
    parseVec (serVec bs ++ rest) = some (bs, rest) := by
  unfold serVec parseVec
  rw [List.append_assoc, parseU32_encU32 bs.length h]
  exact splitN_append bs rest

theorem parseUpdateBytes_ser (b : UpdateBytes) (rest : List Nat)
    (h : match b with
         | .Raw t s => t.length < 4294967296 ∧ s.length < 4294967296
         | .Serialized bs => bs.length < 4294967296) :
    parseUpdateBytes (serUpdateBytes b ++ rest) = some (b, rest) := by
  cases b with
  | Raw t s =>
      obtain ⟨ht, hs⟩ := h
      simp only [serUpdateBytes, List.cons_append, parseUpdateBytes,
        List.append_assoc, parseVec_serVec t _ ht, parseVec_serVec s rest hs]
  | Serialized bs =>
      simp only [serUpdateBytes, List.cons_append, parseUpdateBytes,
        parseVec_serVec bs rest h]

theorem parseUpdateValue_ser (v : UpdateValue) (hwf : WF v) (rest : List Nat) :
    parseUpdateValue (serUpdateValue v ++ rest) = some (v, rest) := by
  obtain ⟨hlen, _, hb⟩ := hwf
  have hlens : match v.bytes with
      | .Raw t s => t.length < 4294967296 ∧ s.length < 4294967296
      | .Serialized bs => bs.length < 4294967296 := by
    cases h : v.bytes with
    | Raw t s => rw [h] at hb; exact ⟨hb.2.2.1, hb.2.2.2⟩
    | Serialized bs => rw [h] at hb; exact hb.2
  unfold parseUpdateValue serUpdateValue
  rw [List.append_assoc, ← hlen]
  simp only [splitN_append, parseUpdateBytes_ser v.bytes rest hlens]

theorem borshDeserialize_ser (v : UpdateValue) (hwf : WF v) :
    borshDeserialize (serUpdateValue v) = some v := by
  unfold borshDeserialize
  have h := parseUpdateValue_ser v hwf []
  rw [List.append_nil] at h
  rw [h]

theorem serUpdateValue_bytes_lt (v : UpdateValue) (hwf : WF v) :
    ∀ b ∈ serUpdateValue v, b < 256 := by
  obtain ⟨-, hh, hb⟩ := hwf
  intro b hbmem
  simp only [serUpdateValue, List.mem_append] at hbmem
  rcases hbmem with h | h
  · exact hh b h
  · cases hby : v.bytes with
    | Raw t s =>
        rw [hby] at h hb
        simp only [serUpdateBytes, List.cons_append, List.mem_cons,
          List.mem_append, serVec] at h
        rcases h with h | (h | h) | (h | h)
        · omega
        · exact encU32_lt _ b h
        · exact hb.1 b h
        · exact encU32_lt _ b h
        · exact hb.2.1 b h
    | Serialized bs =>
        rw [hby] at h hb
        simp only [serUpdateBytes, serVec, List.mem_cons,
          List.mem_append] at h
        rcases h with h | h | h
        · omega
        · exact encU32_lt _ b h
        · exact hb.1 b h

theorem hexVal_hexDigit (n : Nat) (h : n < 16) :
    hexVal (hexDigit n) = some n := by
  interval_cases n <;> rfl

theorem hexDecodeChars_encode (bs : List Nat) (h : ∀ b ∈ bs, b < 256) :
    hexDecodeChars (hexEncodeBytes bs) = some bs := by
  induction bs with
  | nil => rfl
  | cons b bs ih =>
      have hb : b < 256 := h b (List.mem_cons_self b bs)
      have htl : ∀ x ∈ bs, x < 256 := fun x hx => h x (List.mem_cons_of_mem b hx)
      have hbv : 16 * (b / 16) + b % 16 = b := by omega
      simp only [hexEncodeBytes, hexDecodeChars,
        hexVal_hexDigit (b / 16) (by omega : b / 16 < 16),
        hexVal_hexDigit (b % 16) (by omega : b % 16 < 16), ih htl, hbv]

theorem decodeWire_encodeWire (v : UpdateValue) (hwf : WF v) :
    decodeWire (encodeWire v) = some v := by
  unfold decodeWire encodeWire hexDecode
  have htl : (String.mk (hexEncodeBytes (serUpdateValue v))).toList
      = hexEncodeBytes (serUpdateValue v) := rfl
  simp only [htl, hexDecodeChars_encode _ (serUpdateValue_bytes_lt v hwf),
    borshDeserialize_ser v hwf]

/-! ### Store lemmas -/

theorem entriesRead_delete_self (l : List (String × List Nat)) (k : String) :
    entriesRead (entriesDelete l k) k = none := by
  induction l with
  | nil => rfl
  | cons e rest ih =>
      by_cases he : e.1 = k
      · rw [entriesDelete, List.filter_cons_of_neg (by simp [he])]
        exact ih
      · rw [entriesDelete, List.filter_cons_of_pos (by simp [he])]
        rw [entriesRead, List.find?_cons_of_neg _ (by simp [he])]
        exact ih

theorem entriesRead_delete_other (l : List (String × List Nat))
    (k k' : String) (h : k' ≠ k) :
    entriesRead (entriesDelete l k) k' = entriesRead l k' := by
  induction l with
  | nil => rfl
  | cons e rest ih =>
      by_cases he : e.1 = k
      · rw [entriesDelete, List.filter_cons_of_neg (by simp [he])]
        rw [show entriesRead (e :: rest) k' = entriesRead rest k' by
          rw [entriesRead, List.find?_cons_of_neg _
            (by simp [he]; exact fun hh => h hh.symm)]
          rfl]
        exact ih
      · rw [entriesDelete, List.filter_cons_of_pos (by simp [he])]
        by_cases he2 : e.1 = k'
        · rw [entriesRead, entriesRead,
            List.find?_cons_of_pos _ (by simp [he2]),
            List.find?_cons_of_pos _ (by simp [he2])]
        · rw [entriesRead, entriesRead,
            List.find?_cons_of_neg _ (by simp [he2]),
            List.find?_cons_of_neg _ (by simp [he2])]
          exact ih

theorem entriesRead_write_self (l : List (String × List Nat)) (k : String)
    (v : List Nat) : entriesRead (entriesWrite l k v) k = some v := by
  simp [entriesRead, entriesWrite]

theorem entriesRead_write_other (l : List (String × List Nat))
    (k k' : String) (v : List Nat) (h : k' ≠ k) :
    entriesRead (entriesWrite l k v) k' = entriesRead l k' := by
  have hk : (k == k') = false := beq_false_of_ne (fun hh => h hh.symm)
  simp only [entriesRead, entriesWrite, List.find?_cons, hk]
  exact entriesRead_delete_other l k k' h

theorem MockDB.read_write_self (db : MockDB) (k : String) (v : List Nat) :
    (db.write k v).read k = some v :=
  entriesRead_write_self db.entries k v

theorem MockDB.read_write_other (db : MockDB) (k k' : String)
    (v : List Nat) (h : k' ≠ k) : (db.write k v).read k' = db.read k' :=
  entriesRead_write_other db.entries k k' v h

theorem MockDB.read_delete_self (db : MockDB) (k : String) :
    (db.delete k).read k = none :=
  entriesRead_delete_self db.entries k

theorem MockDB.read_delete_other (db : MockDB) (k k' : String)
    (h : k' ≠ k) : (db.delete k).read k' = db.read k' :=
  entriesRead_delete_other db.entries k k' h

theorem writeAllDB_trace (w : List Nat) (ms : List (String × List Nat))
    (db : MockDB) :
    (writeAllDB db w ms).trace
      = db.trace ++ ms.map (fun kv => DbOp.write kv.1 w) := by
  induction ms generalizing db with
  | nil => simp [writeAllDB]
  | cons kv rest ih =>
      simp [writeAllDB, List.foldl_cons] at ih ⊢
      rw [ih]
      simp [MockDB.write, List.append_assoc]

theorem read_writeAll_not_mem (w : List Nat) (ms : List (String × List Nat))
    (db : MockDB) (k : String) (h : k ∉ ms.map Prod.fst) :
    (writeAllDB db w ms).read k = db.read k := by
  induction ms generalizing db with
  | nil => rfl
  | cons kv rest ih =>
      simp only [List.map_cons, List.mem_cons, not_or] at h
      have : (writeAllDB (db.write kv.1 w) w rest).read k
          = (db.write kv.1 w).read k := ih _ h.2
      simp only [writeAllDB, List.foldl_cons] at this ⊢
      rw [this, MockDB.read_write_other _ _ _ _ h.1]

theorem read_writeAll_mem (w : List Nat) (ms : List (String × List Nat))
    (db : MockDB) (k : String) (h : k ∈ ms.map Prod.fst) :
    (writeAllDB db w ms).read k = some w := by
  induction ms generalizing db with
  | nil => simp at h
  | cons kv rest ih =>
      by_cases hr : k ∈ rest.map Prod.fst
      · simpa [writeAllDB, List.foldl_cons] using ih (db.write kv.1 w) hr
      · have hk : k = kv.1 := by
          simp only [List.map_cons, List.mem_cons] at h
          tauto
        have hfr := read_writeAll_not_mem w rest (db.write kv.1 w) k hr
        simp only [writeAllDB, List.foldl_cons] at hfr ⊢
        rw [hfr, hk, MockDB.read_write_self]

theorem read_deleteAll_not_mem (ms : List (String × List Nat))
    (db : MockDB) (k : String) (h : k ∉ ms.map Prod.fst) :
    (deleteAllDB db ms).read k = db.read k := by
  induction ms generalizing db with
  | nil => rfl
  | cons kv rest ih =>
      simp only [List.map_cons, List.mem_cons, not_or] at h
      have : (deleteAllDB (db.delete kv.1) rest).read k
          = (db.delete kv.1).read k := ih _ h.2
      simp only [deleteAllDB, List.foldl_cons] at this ⊢
      rw [this, MockDB.read_delete_other _ _ _ h.1]

theorem read_deleteAll_mem (ms : List (String × List Nat))
    (db : MockDB) (k : String) (h : k ∈ ms.map Prod.fst) :
    (deleteAllDB db ms).read k = none := by
  induction ms generalizing db with
  | nil => simp at h
  | cons kv rest ih =>
      by_cases hr : k ∈ rest.map Prod.fst
      · simpa [deleteAllDB, List.foldl_cons] using ih (db.delete kv.1) hr
      · have hk : k = kv.1 := by
          simp only [List.map_cons, List.mem_cons] at h
          tauto
        have hfr := read_deleteAll_not_mem rest (db.delete kv.1) k hr
        simp only [deleteAllDB, List.foldl_cons] at hfr ⊢
        rw [hfr, hk, MockDB.read_delete_self]

/-! ### Lemmas about the `RepeatAdd` loop -/

theorem repeatAddLoop_none (d : String) (w : List Nat)
    (ms : List (String × List Nat)) :
    ∀ (db : MockDB) (pairs : List (String × String)),
      repeatAddLoop none d w ms db pairs
        = .ok (.Add (pairs ++ ms.map (fun kv => (kv.1, d))))
            (writeAllDB db w ms) := by
  induction ms with
  | nil => intro db pairs; simp [repeatAddLoop, writeAllDB]
  | cons kv rest ih =>
      intro db pairs
      obtain ⟨key, prev⟩ := kv
      simp only [repeatAddLoop]
      rw [ih (db.write key w) (pairs ++ [(key, d)])]
      simp [writeAllDB, List.foldl_cons, List.append_assoc]

theorem repeatAddLoop_some_ok (des : Decoder) (d : String) (w : List Nat)
    (ms : List (String × List Nat)) :
    ∀ (db : MockDB) (pairs : List (String × String)),
      (∀ kv ∈ ms, (des kv.2).isSome) →
      repeatAddLoop (some des) d w ms db pairs
        = .ok (.Add (pairs ++ ms.map (fun kv => (kv.1, d))))
            (writeAllDB db w ms) := by
  induction ms with
  | nil => intro db pairs _; simp [repeatAddLoop, writeAllDB]
  | cons kv rest ih =>
      intro db pairs h
      obtain ⟨key, prev⟩ := kv
      obtain ⟨x, hx⟩ := Option.isSome_iff_exists.mp
        (h (key, prev) (List.mem_cons_self _ _))
      simp only [repeatAddLoop, hx]
      rw [ih (db.write key w) (pairs ++ [(key, d)])
        (fun kv hkv => h kv (List.mem_cons_of_mem _ hkv))]
      simp [writeAllDB, List.foldl_cons, List.append_assoc]

theorem repeatAddLoop_abort (des : Decoder) (d : String) (w : List Nat)
    (bad : String × List Nat) (post : List (String × List Nat))
    (hbad : des bad.2 = none) (pre : List (String × List Nat)) :
    ∀ (db : MockDB) (pairs : List (String × String)),
      (∀ kv ∈ pre, (des kv.2).isSome) →
      repeatAddLoop (some des) d w (pre ++ bad :: post) db pairs
        = .err (.typeMismatch bad.1) (writeAllDB db w pre) := by
  induction pre with
  | nil =>
      intro db pairs _
      obtain ⟨bk, bp⟩ := bad
      simp only [List.nil_append]
      simp [repeatAddLoop, hbad, writeAllDB]
  | cons kv rest ih =>
      intro db pairs h
      obtain ⟨key, prev⟩ := kv
      obtain ⟨x, hx⟩ := Option.isSome_iff_exists.mp
        (h (key, prev) (List.mem_cons_self _ _))
      simp only [List.cons_append, repeatAddLoop, hx, List.append_eq]
      rw [ih (db.write key w) (pairs ++ [(key, d)])
        (fun kv hkv => h kv (List.mem_cons_of_mem _ hkv))]
      simp [writeAllDB, List.foldl_cons]

/-! ### Claims about the wire form and `validate` -/

/-- C1: decoding the hex wire form of any well-formed constructed
`UpdateValue` (raw or serialized payload) yields the original value,
and decoding fails exactly on invalid hex or on bytes that are not a
well-formed borsh `UpdateValue`. -/
theorem wire_round_trip (v : UpdateValue) (hwf : WF v) :
    decodeWire (encodeWire v) = some v ∧
    ∀ s : String, decodeWire s = none ↔
      (hexDecode s = none ∨
        ∃ bs, hexDecode s = some bs ∧ borshDeserialize bs = none) := by
  refine ⟨decodeWire_encodeWire v hwf, fun s => ?_⟩
  cases h : hexDecode s with
  | none => simp [decodeWire, h]
  | some bs => simp [decodeWire, h]

theorem wire_round_trip_witness :
    WF ⟨List.replicate 32 0, .Serialized [1]⟩ ∧
    decodeWire (encodeWire ⟨List.replicate 32 0, .Serialized [1]⟩)
      = some ⟨List.replicate 32 0, .Serialized [1]⟩ :=
  ⟨by decide, (wire_round_trip _ (by decide)).1⟩

/-- Counterexample to C2 as stated: for a force-mode `Add` of a raw
value with `to_write = [1]` and canonical bytes `[2]`, `validate`
previews the canonical bytes (`"[2]"`), not the bytes that will be
persisted (`claimedBytePreview` gives `"[1]"`); and for a raw value
with 301 `to_write` bytes and no canonical bytes it panics (`none`)
instead of returning `Ok` at all. -/
theorem force_preview_counterexample :
    validate (fun _ => none)
        (.Add "key" ⟨List.replicate 32 0, .Raw [1] [2]⟩ true)
      = some (.ok ("[2]", none)) ∧
    claimedBytePreview ⟨List.replicate 32 0, .Raw [1] [2]⟩ = "[1]" ∧
    ("[2]" : String) ≠ "[1]" ∧
    validate (fun _ => none)
        (.Add "key" ⟨List.replicate 32 0, .Raw (List.replicate 301 0) []⟩ true)
      = none :=
  ⟨rfl, rfl, by decide, rfl⟩

/-- C2 (amended): for any `Add`/`RepeatAdd` with `force = true`,
`validate` never returns an error and skips all registry and decode
checks: unless the preview formatting panics (`to_write` longer than
the cutoff while the canonical bytes are shorter), it returns `Ok`
with a preview of the canonical bytes — truncated at the cutoff when
`to_write` exceeds it — and no decoder. -/
theorem force_validate_ok_or_panic (reg : Registry) (u : DbUpdateType)
    (key pat : String) (v : UpdateValue)
    (hu : u = .Add key v true ∨ u = .RepeatAdd pat v true) :
    (PRINTLN_CUTOFF < v.to_write.length →
      v.canonicalBytes.length < PRINTLN_CUTOFF → validate reg u = none) ∧
    (PRINTLN_CUTOFF < v.to_write.length →
      PRINTLN_CUTOFF ≤ v.canonicalBytes.length →
      validate reg u = some (.ok
        (rustDebugBytes (v.canonicalBytes.take PRINTLN_CUTOFF) ++ " ...",
         none))) ∧
    (v.to_write.length ≤ PRINTLN_CUTOFF →
      validate reg u = some (.ok (rustDebugBytes v.canonicalBytes, none))) := by
  rcases hu with rfl | rfl <;>
    exact ⟨fun h1 h2 => by
        simp [validate, DbUpdateType.is_force, DbUpdateType.formatted_bytes,
          h1, Nat.not_le.mpr h2],
      fun h1 h2 => by
        simp [validate, DbUpdateType.is_force, DbUpdateType.formatted_bytes,
          h1, h2],
      fun h1 => by
        simp [validate, DbUpdateType.is_force, DbUpdateType.formatted_bytes,
          Nat.not_lt.mpr h1]⟩

theorem force_validate_ok_or_panic_witness :
    validate (fun _ => none)
        (.Add "key" ⟨List.replicate 32 0, .Raw [1] [2]⟩ true)
      = some (.ok (rustDebugBytes [2], none)) :=
  (force_validate_ok_or_panic (fun _ => none) _ "key" ""
    ⟨List.replicate 32 0, .Raw [1] [2]⟩ (Or.inl rfl)).2.2 (by decide)

/-- C10: there is an `UpdateValue` accepted by the wire decoder — a raw
payload whose `to_write` exceeds the 300-byte cutoff while its
serialized (canonical) bytes are shorter — on which `validate` with
`force = true` panics (out-of-bounds slice in the byte-preview
formatting) instead of returning a result. -/
theorem accepted_raw_value_panics_preview :
    ∃ v : UpdateValue,
      decodeWire (encodeWire v) = some v ∧
      v.is_raw = true ∧
      PRINTLN_CUTOFF < v.to_write.length ∧
      v.canonicalBytes.length < PRINTLN_CUTOFF ∧
      ∀ (reg : Registry) (key pat : String),
        validate reg (.Add key v true) = none ∧
        validate reg (.RepeatAdd pat v true) = none :=
  ⟨⟨List.replicate 32 0, .Raw (List.replicate 301 0) []⟩,
    decodeWire_encodeWire _ (by decide), rfl, by decide, by decide,
    fun reg key pat => ⟨rfl, rfl⟩⟩

/-- C3: on a non-force `Add`/`RepeatAdd`, `validate` fails with
`UnknownType` exactly when the type hash has no registry entry;
otherwise it fails with `DecodeFailure` exactly when the registered
decoder cannot parse the canonical bytes; and when the decode succeeds
it returns `Ok` with the decoder present iff the value is raw. -/
theorem nonforce_validate_characterization (reg : Registry)
    (u : DbUpdateType) (key pat : String) (v : UpdateValue)
    (hu : u = .Add key v false ∨ u = .RepeatAdd pat v false) :
    (validate reg u = some (.error .unknownType) ↔ reg v.type_hash = none) ∧
    (validate reg u = some (.error .decodeFailure) ↔
      ∃ des, reg v.type_hash = some des ∧ des v.canonicalBytes = none) ∧
    (∀ des d, reg v.type_hash = some des → des v.canonicalBytes = some d →
      ∃ s, validate reg u = some (.ok (s,
        if v.is_raw then some des else none))) := by
  rcases hu with rfl | rfl <;>
    refine ⟨?_, ?_, fun des d h1 h2 => ?_⟩ <;>
    first
    | (cases hreg : reg v.type_hash with
       | none => simp [validate, DbUpdateType.is_force, hreg]
       | some des =>
           cases hdes : des v.canonicalBytes with
           | none => simp [validate, DbUpdateType.is_force, hreg, hdes]
           | some d =>
               by_cases hlen : PRINTLN_CUTOFF < d.utf8ByteSize <;>
                 simp [validate, DbUpdateType.is_force, hreg, hdes, hlen])
    | (refine ⟨if PRINTLN_CUTOFF < d.utf8ByteSize then
          takeChars PRINTLN_CUTOFF d ++ " ..." else d, ?_⟩
       by_cases hlen : PRINTLN_CUTOFF < d.utf8ByteSize <;>
         simp [validate, DbUpdateType.is_force, h1, h2, hlen])

theorem nonforce_validate_characterization_witness :
    validate (fun _ => none)
        (.Add "k" ⟨List.replicate 32 0, .Serialized [1]⟩ false)
      = some (.error .unknownType) :=
  (nonforce_validate_characterization (fun _ => none) _ "k" ""
    ⟨List.replicate 32 0, .Serialized [1]⟩ (Or.inl rfl)).1.mpr rfl

/-- Counterexample to C8 as stated: the truncation gate is the string's
UTF-8 byte length, not its character count.  A 200-character decoded
value whose characters are two bytes each (400 bytes) is truncated and
gets the ellipsis marker even though it is at most 300 characters. -/
theorem display_truncation_counterexample :
    (String.mk (List.replicate 200 'À')).length = 200 ∧
    validate (fun _ => some (fun _ => some (String.mk (List.replicate 200 'À'))))
        (.Add "k" ⟨List.replicate 32 0, .Serialized [1]⟩ false)
      = some (.ok (String.mk (List.replicate 200 'À') ++ " ...", none)) ∧
    String.mk (List.replicate 200 'À') ++ " ..."
      ≠ String.mk (List.replicate 200 'À') :=
  ⟨by decide, rfl, by decide⟩

/-- C8 (amended): the display string for a successfully decoded value
is the decoded string unmodified when its UTF-8 byte length is at most
300 (e.g. a 200-character ASCII value), and the first 300 characters
followed by the ellipsis marker when the byte length is larger (e.g. a
400-character ASCII value). -/
theorem display_truncation (reg : Registry) (u : DbUpdateType)
    (key pat : String) (v : UpdateValue) (des : Decoder) (d : String)
    (hu : u = .Add key v false ∨ u = .RepeatAdd pat v false)
    (hreg : reg v.type_hash = some des)
    (hdes : des v.canonicalBytes = some d) :
    (d.utf8ByteSize ≤ PRINTLN_CUTOFF →
      validate reg u = some (.ok (d, if v.is_raw then some des else none))) ∧
    (PRINTLN_CUTOFF < d.utf8ByteSize →
      validate reg u = some (.ok (takeChars PRINTLN_CUTOFF d ++ " ...",
        if v.is_raw then some des else none))) := by
  rcases hu with rfl | rfl <;>
    exact ⟨fun h => by
        simp [validate, DbUpdateType.is_force, hreg, hdes, Nat.not_lt.mpr h],
      fun h => by
        simp [validate, DbUpdateType.is_force, hreg, hdes, h]⟩

theorem display_truncation_witness :
    validate (fun _ => some (fun _ => some (String.mk (List.replicate 400 'a'))))
        (.Add "k" ⟨List.replicate 32 0, .Serialized [1]⟩ false)
      = some (.ok (takeChars PRINTLN_CUTOFF (String.mk (List.replicate 400 'a'))
          ++ " ...", none)) :=
  (display_truncation _ _ "k" "" ⟨List.replicate 32 0, .Serialized [1]⟩ _ _
    (Or.inl rfl) rfl rfl).2 (by decide)

/-! ### Claims about `update` -/

/-- C4: for a non-force `Add` whose value validates: if a prior value
exists at the key and a decoder was returned (raw mode) and the prior
value fails to decode, `update` fails with `TypeMismatch` and the store
is unchanged; otherwise `update` succeeds, the store afterwards holds
`value.to_write()` at the key, and one `(key, display_string)` pair is
reported. -/
theorem add_update_characterization (reg : Registry)
    (compile : String → Option Regex) (key : String) (v : UpdateValue)
    (d : String) (des? : Option Decoder) (db : MockDB)
    (hval : validate reg (.Add key v false) = some (.ok (d, des?))) :
    (∀ prev des, db.read key = some prev → des? = some des →
      des prev = none →
      update reg compile (.Add key v false) db
        = .err (.typeMismatch key) db) ∧
    ((db.read key = none ∨ des? = none ∨
      (∃ prev des x, db.read key = some prev ∧ des? = some des ∧
        des prev = some x)) →
      ∃ db', update reg compile (.Add key v false) db
          = .ok (.Add [(key, d)]) db' ∧
        db'.read key = some v.to_write ∧
        ∀ k, k ≠ key → db'.read k = db.read k) := by
  constructor
  · intro prev des hread hdes hfail
    subst hdes
    simp [update, hval, hread, hfail]
  · intro hcase
    refine ⟨db.write key v.to_write, ?_, MockDB.read_write_self db key v.to_write,
      fun k hk => MockDB.read_write_other db key k v.to_write hk⟩
    rcases hcase with hnone | hnone | ⟨prev, des, x, hread, hdes, hx⟩
    · simp [update, hval, hnone]
    · subst hnone
      cases hr : db.read key <;> simp [update, hval, hr]
    · subst hdes
      simp [update, hval, hread, hx]

theorem add_update_characterization_witness :
    (∃ db',
      update
        (fun _ => some (fun bs =>
          if bs == [3, 4, 5] then some "val"
          else if bs == [9] then some "prior" else none))
        (fun _ => none)
        (.Add "k" ⟨List.replicate 32 0, .Raw [7] [3, 4, 5]⟩ false)
        ⟨[("k", [9])], []⟩
        = .ok (.Add [("k", "val")]) db' ∧
      db'.read "k" = some [7]) ∧
    update
        (fun _ => some (fun bs =>
          if bs == [3, 4, 5] then some "val" else none))
        (fun _ => none)
        (.Add "k" ⟨List.replicate 32 0, .Raw [7] [3, 4, 5]⟩ false)
        ⟨[("k", [9])], []⟩
      = .err (.typeMismatch "k") ⟨[("k", [9])], []⟩ := by
  constructor
  · obtain ⟨db', h1, h2, -⟩ :=
      (add_update_characterization
        (fun _ => some (fun bs =>
          if bs == [3, 4, 5] then some "val"
          else if bs == [9] then some "prior" else none))
        (fun _ => none) "k" ⟨List.replicate 32 0, .Raw [7] [3, 4, 5]⟩
        "val" _ ⟨[("k", [9])], []⟩ rfl).2
        (Or.inr (Or.inr ⟨[9], _, "prior", rfl, rfl, rfl⟩))
    exact ⟨db', h1, h2⟩
  · exact (add_update_characterization
      (fun _ => some (fun bs =>
        if bs == [3, 4, 5] then some "val" else none))
      (fun _ => none) "k" ⟨List.replicate 32 0, .Raw [7] [3, 4, 5]⟩
      "val" _ ⟨[("k", [9])], []⟩ rfl).1 [9] _ rfl rfl rfl

/-- C5: during a raw-mode `RepeatAdd`, matched keys are processed one
by one in scan order and the operation aborts on the first key whose
prior value fails to decode: `update` returns an error, writes already
performed to the earlier matched keys remain committed (no rollback),
and the mismatching key and all later matched keys are not written. -/
theorem repeat_add_aborts_on_first_mismatch (reg : Registry)
    (compile : String → Option Regex) (pat : String) (v : UpdateValue)
    (force : Bool) (d : String) (des : Decoder) (r : Regex) (db : MockDB)
    (pre post : List (String × List Nat)) (bad : String × List Nat)
    (hc : compile pat = some r)
    (hval : validate reg (.RepeatAdd pat v force) = some (.ok (d, some des)))
    (hsplit : db.entries.filter (fun e => r.isMatch e.1) = pre ++ bad :: post)
    (hpre : ∀ kv ∈ pre, (des kv.2).isSome)
    (hbad : des bad.2 = none)
    (hnodup : (db.entries.map Prod.fst).Nodup) :
    ∃ db',
      update reg compile (.RepeatAdd pat v force) db
        = .err (.typeMismatch bad.1) db' ∧
      db'.trace = db.trace ++ DbOp.scan r.source ::
        pre.map (fun kv => DbOp.write kv.1 v.to_write) ∧
      (∀ kv ∈ pre, db'.read kv.1 = some v.to_write) ∧
      db'.read bad.1 = db.read bad.1 ∧
      (∀ kv ∈ post, db'.read kv.1 = db.read kv.1) := by
  have hkeysnd : (pre.map Prod.fst ++ bad.1 :: post.map Prod.fst).Nodup := by
    have hsub : List.Sublist
        ((db.entries.filter (fun e => r.isMatch e.1)).map Prod.fst)
        (db.entries.map Prod.fst) :=
      (List.filter_sublist _).map _
    have hnd := List.Nodup.sublist hsub hnodup
    rw [hsplit] at hnd
    simpa using hnd
  have hdisj := (List.nodup_append.mp hkeysnd).2.2
  have hbadpre : bad.1 ∉ pre.map Prod.fst :=
    fun hmem => hdisj hmem (List.mem_cons_self _ _)
  have hpostpre : ∀ kv ∈ post, kv.1 ∉ pre.map Prod.fst :=
    fun kv hkv hmem =>
      hdisj hmem (List.mem_cons_of_mem _ (List.mem_map_of_mem Prod.fst hkv))
  refine ⟨writeAllDB ⟨db.entries, db.trace ++ [.scan r.source]⟩ v.to_write pre,
    ?_, ?_, ?_, ?_, ?_⟩
  · simp only [update, hc, hval, MockDB.get_pattern]
    rw [hsplit, repeatAddLoop_abort des d v.to_write bad post hbad pre _ [] hpre]
  · rw [writeAllDB_trace]
    simp
  · intro kv hkv
    exact read_writeAll_mem _ _ _ _ (List.mem_map_of_mem _ hkv)
  · rw [read_writeAll_not_mem _ _ _ _ hbadpre]
    rfl
  · intro kv hkv
    rw [read_writeAll_not_mem _ _ _ _ (hpostpre kv hkv)]
    rfl

theorem repeat_add_aborts_on_first_mismatch_witness :
    ∃ db',
      update (fun _ => some (fun bs =>
          if bs == [3, 4, 5] then some "val"
          else if bs == [1] then some "x" else none))
        (fun p => some ⟨p, fun _ => true⟩)
        (.RepeatAdd "all" ⟨List.replicate 32 0, .Raw [7] [3, 4, 5]⟩ false)
        ⟨[("a", [1]), ("b", [2])], []⟩
        = .err (.typeMismatch "b") db' ∧
      db'.read "a" = some [7] ∧
      db'.read "b" = some [2] := by
  obtain ⟨db', h1, -, h3, h4, -⟩ :=
    repeat_add_aborts_on_first_mismatch
      (fun _ => some (fun bs =>
        if bs == [3, 4, 5] then some "val"
        else if bs == [1] then some "x" else none))
      (fun p => some ⟨p, fun _ => true⟩) "all"
      ⟨List.replicate 32 0, .Raw [7] [3, 4, 5]⟩ false "val" _
      ⟨"all", fun _ => true⟩ ⟨[("a", [1]), ("b", [2])], []⟩
      [("a", [1])] [] ("b", [2]) rfl rfl rfl (by decide) rfl (by decide)
  refine ⟨db', h1, h3 ("a", [1]) (by decide), ?_⟩
  rw [h4]
  rfl

/-- C6: a `RepeatAdd` whose validation succeeds and whose matched keys
all pass the prior-value check writes `value.to_write()` to every key
the pattern scan returns and reports one `(key, display_string)` pair
per matched key; with zero matches it performs zero writes (store and
trace untouched apart from the scan) and reports an empty list. -/
theorem repeat_add_all_pass (reg : Registry)
    (compile : String → Option Regex) (pat : String) (v : UpdateValue)
    (force : Bool) (d : String) (des? : Option Decoder) (r : Regex)
    (db : MockDB)
    (hc : compile pat = some r)
    (hval : validate reg (.RepeatAdd pat v force) = some (.ok (d, des?)))
    (hok : ∀ kv ∈ db.entries.filter (fun e => r.isMatch e.1),
      ∀ des, des? = some des → (des kv.2).isSome) :
    ∃ db',
      update reg compile (.RepeatAdd pat v force) db
        = .ok (.Add ((db.entries.filter (fun e => r.isMatch e.1)).map
            (fun kv => (kv.1, d)))) db' ∧
      (∀ kv ∈ db.entries.filter (fun e => r.isMatch e.1),
        db'.read kv.1 = some v.to_write) ∧
      (∀ k, k ∉ (db.entries.filter (fun e => r.isMatch e.1)).map Prod.fst →
        db'.read k = db.read k) ∧
      (db.entries.filter (fun e => r.isMatch e.1) = [] →
        db'.entries = db.entries ∧
        db'.trace = db.trace ++ [DbOp.scan r.source]) := by
  refine ⟨writeAllDB ⟨db.entries, db.trace ++ [.scan r.source]⟩ v.to_write
      (db.entries.filter (fun e => r.isMatch e.1)), ?_, ?_, ?_, ?_⟩
  · simp only [update, hc, hval, MockDB.get_pattern]
    cases hdq : des? with
    | none =>
        rw [repeatAddLoop_none]
        simp
    | some des =>
        rw [repeatAddLoop_some_ok des d v.to_write _ _ []
          (fun kv hkv => hok kv hkv des hdq)]
        simp
  · intro kv hkv
    exact read_writeAll_mem _ _ _ _ (List.mem_map_of_mem _ hkv)
  · intro k hk
    rw [read_writeAll_not_mem _ _ _ _ hk]
    rfl
  · intro hempty
    rw [hempty]
    exact ⟨rfl, rfl⟩

theorem repeat_add_all_pass_witness :
    ∃ db',
      update (fun _ => some (fun bs =>
          if bs == [3, 4, 5] then some "val" else none))
        (fun p => some ⟨p, fun _ => false⟩)
        (.RepeatAdd "none" ⟨List.replicate 32 0, .Serialized [3, 4, 5]⟩ false)
        ⟨[("b", [2])], []⟩
        = .ok (.Add []) db' ∧
      db'.entries = [("b", [2])] := by
  obtain ⟨db', h1, -, -, h4⟩ :=
    repeat_add_all_pass
      (fun _ => some (fun bs =>
        if bs == [3, 4, 5] then some "val" else none))
      (fun p => some ⟨p, fun _ => false⟩) "none"
      ⟨List.replicate 32 0, .Serialized [3, 4, 5]⟩ false "val" none
      ⟨"none", fun _ => false⟩ ⟨[("b", [2])], []⟩ rfl rfl
      (fun kv hkv des hdes => by cases hdes)
  exact ⟨db', h1, (h4 rfl).1⟩

/-- C7: `RepeatDelete` deletes exactly the keys returned by the pattern
scan and reports that list, leaving every other key in the store
untouched. -/
theorem repeat_delete_exact (reg : Registry)
    (compile : String → Option Regex) (pat : String) (r : Regex)
    (db : MockDB) (hc : compile pat = some r) :
    ∃ db',
      update reg compile (.RepeatDelete pat) db
        = .ok (.Deleted ((db.entries.filter (fun e => r.isMatch e.1)).map
            Prod.fst)) db' ∧
      (∀ k ∈ (db.entries.filter (fun e => r.isMatch e.1)).map Prod.fst,
        db'.read k = none) ∧
      (∀ k, k ∉ (db.entries.filter (fun e => r.isMatch e.1)).map Prod.fst →
        db'.read k = db.read k) := by
  refine ⟨deleteAllDB ⟨db.entries, db.trace ++ [.scan r.source]⟩
      (db.entries.filter (fun e => r.isMatch e.1)), ?_, ?_, ?_⟩
  · simp only [update, hc, MockDB.get_pattern]
    rfl
  · intro k hk
    exact read_deleteAll_mem _ _ _ hk
  · intro k hk
    rw [read_deleteAll_not_mem _ _ _ hk]
    rfl

theorem repeat_delete_exact_witness :
    ∃ db',
      update (fun _ => none)
        (fun p => some ⟨p, fun k => k == "a/1" || k == "a/2"⟩)
        (.RepeatDelete "a-keys")
        ⟨[("a/1", [1]), ("a/2", [2]), ("b/1", [3])], []⟩
        = .ok (.Deleted ["a/1", "a/2"]) db' ∧
      db'.read "a/1" = none ∧
      db'.read "a/2" = none ∧
      db'.read "b/1" = some [3] := by
  obtain ⟨db', h1, h2, h3⟩ :=
    repeat_delete_exact (fun _ => none)
      (fun p => some ⟨p, fun k => k == "a/1" || k == "a/2"⟩) "a-keys"
      ⟨"a-keys", fun k => k == "a/1" || k == "a/2"⟩
      ⟨[("a/1", [1]), ("a/2", [2]), ("b/1", [3])], []⟩ rfl
  refine ⟨db', h1, h2 "a/1" (by decide), h2 "a/2" (by decide), ?_⟩
  rw [h3 "b/1" (by decide)]
  rfl

/-- C9: for a `RepeatAdd` or `RepeatDelete` whose pattern fails to
compile, `update` does not return a structured error: the failure is a
panic (`Regex::new(..).unwrap()`), and it happens before any scan,
write, or delete is issued for that entry (the store, including its
operation trace, is unchanged at the panic point). -/
theorem malformed_pattern_panics (reg : Registry)
    (compile : String → Option Regex) (p : String) (v : UpdateValue)
    (force : Bool) (db : MockDB) (hc : compile p = none) :
    update reg compile (.RepeatAdd p v force) db = .panic db ∧
    update reg compile (.RepeatDelete p) db = .panic db := by
  constructor <;> simp [update, hc]

theorem malformed_pattern_panics_witness :
    update (fun _ => none) (fun _ => none)
      (.RepeatAdd "(" ⟨List.replicate 32 0, .Serialized [1]⟩ false)
      ⟨[("a", [1])], []⟩ = .panic ⟨[("a", [1])], []⟩ ∧
    update (fun _ => none) (fun _ => none) (.RepeatDelete "(")
      ⟨[("a", [1])], []⟩ = .panic ⟨[("a", [1])], []⟩ :=
  malformed_pattern_panics (fun _ => none) (fun _ => none) "("
    ⟨List.replicate 32 0, .Serialized [1]⟩ false ⟨[("a", [1])], []⟩ rfl

end Migrations
